import Mathlib

/-!
Shallow embedding of the brocolib IL2CPP metadata reader.

The Rust sources embedded here are:
* `src/global_metadata.rs` — global-metadata header validation, tables,
  index types, `Token`, `EncodedMethodIndex`;
* `src/runtime_metadata.rs` — `Il2CppType`, `Il2CppType::full_name` and the
  runtime-metadata entity structures;
* `src/runtime_metadata/elf.rs` — ELF byte-level helpers, relocation
  processing, nullable counted arrays, the ARM64 registration locator.

Machine integers are modelled as `Nat` with explicit masks/modulo where the
Rust code relies on the fixed width.  Fallible Rust code (`Result`,
panicking indexing, `unwrap`) is modelled with `Option`/`Except`/an explicit
`Outcome` type where a dedicated panic case is needed.
-/

namespace Brocolib

/-! ## Byte-level helpers (little-endian reads, as done by `binde`/`byteorder`) -/

/-- Read one byte (`u8`) from a byte list. `none` models hitting end of data. -/
def readU8 (data : List Nat) (off : Nat) : Option Nat :=
  data.get? off

/-- Read a little-endian `u16` from a byte list. -/
def readU16LE (data : List Nat) (off : Nat) : Option Nat := do
  let a ← data.get? off
  let b ← data.get? (off + 1)
  pure (a + b * 256)

/-- Read a little-endian `u32` from a byte list. -/
def readU32LE (data : List Nat) (off : Nat) : Option Nat := do
  let a ← data.get? off
  let b ← data.get? (off + 1)
  let c ← data.get? (off + 2)
  let d ← data.get? (off + 3)
  pure (a + b * 256 + c * 65536 + d * 16777216)

/-- Read a little-endian `u64` from a byte list. -/
def readU64LE (data : List Nat) (off : Nat) : Option Nat := do
  let lo ← readU32LE data off
  let hi ← readU32LE data (off + 4)
  pure (lo + hi * 4294967296)

/-- The `n` little-endian bytes of `v` (as written by `write_u64::<LittleEndian>`
for `n = 8`). -/
def leBytes : Nat → Nat → List Nat
  | _, 0 => []
  | v, n + 1 => v % 256 :: leBytes (v / 256) n

/-! ## `Token` (`src/global_metadata.rs`, `pub struct Token(pub u32)`)

```rust
pub fn ty(self) -> u32 { self.0 & 0xFF000000 }
pub fn rid(self) -> u32 { self.0 & 0x00FFFFFF }
``` -/

/-- A 32-bit metadata token, `struct Token(pub u32)`. -/
structure Token where
  val : Nat
  deriving DecidableEq, Repr

/-- Embeds `Token::ty`: `self.0 & 0xFF000000`. -/
def Token.ty (t : Token) : Nat :=
  t.val &&& 0xFF000000

/-- Embeds `Token::rid`: `self.0 & 0x00FFFFFF`. -/
def Token.rid (t : Token) : Nat :=
  t.val &&& 0x00FFFFFF

/-! ## `EncodedMethodIndex` (`src/global_metadata.rs`) -/

/-- Mirror of `enum InvalidMethodIndex`. -/
inductive InvalidMethodIndex where
  | noData
  | ambiguousMethod
  deriving DecidableEq, Repr

/-- Mirror of `enum DecodedMethodIndex`.  The phantom-typed index payloads
(`MethodIndex`, `FieldRefIndex`, ...) are carried as the underlying `u32`. -/
inductive DecodedMethodIndex where
  | invalid (k : InvalidMethodIndex)
  | typeInfo (idx : Nat)
  | il2cppType (idx : Nat)
  | methodDef (idx : Nat)
  | fieldInfo (idx : Nat)
  | stringLiteral (idx : Nat)
  | methodRef (idx : Nat)
  | fieldRva (idx : Nat)
  deriving DecidableEq, Repr

/-- Embeds `EncodedMethodIndex::decode`.  The two `panic!` arms of the Rust
`match` are modelled as `none`. -/
def EncodedMethodIndex.decode (x : Nat) : Option DecodedMethodIndex :=
  let ty := (x &&& 0xE0000000) >>> 29
  let idx := (x &&& 0x1FFFFFFE) >>> 1
  let invalid := x &&& 0x00000001
  match ty with
  | 0 =>
    match invalid with
    | 0 => some (.invalid .noData)
    | 1 => some (.invalid .ambiguousMethod)
    | _ => none
  | 1 => some (.typeInfo idx)
  | 2 => some (.il2cppType idx)
  | 3 => some (.methodDef idx)
  | 4 => some (.fieldInfo idx)
  | 5 => some (.stringLiteral idx)
  | 6 => some (.methodRef idx)
  | 7 => some (.fieldRva idx)
  | _ => none

/-- Spec-side mapping for the encoded method index, written from the claim:
`ty = 0..7` maps to Invalid (NoData/AmbiguousMethod by the invalid bit),
TypeInfo, Il2CppType, MethodDef, FieldInfo, StringLiteral, MethodRef and
FieldRva respectively. -/
def encodedMethodIndexSpec (ty idx invalid : Nat) : DecodedMethodIndex :=
  if ty = 0 then
    .invalid (if invalid = 0 then .noData else .ambiguousMethod)
  else if ty = 1 then .typeInfo idx
  else if ty = 2 then .il2cppType idx
  else if ty = 3 then .methodDef idx
  else if ty = 4 then .fieldInfo idx
  else if ty = 5 then .stringLiteral idx
  else if ty = 6 then .methodRef idx
  else .fieldRva idx

/-! ## Global metadata header and `deserialize` (`src/global_metadata.rs`)

```rust
const SANITY: u32 = 0xFAB11BAF;
const VERSION: u32 = 31;
```
The header is `sanity, version` followed by one `OffsetLen` pair per table;
the `metadata!` invocation lists 31 tables. -/

/-- The `SANITY` constant. -/
def SANITY : Nat := 0xFAB11BAF

/-- The `VERSION` constant. -/
def VERSION : Nat := 31

/-- Mirror of `struct OffsetLen { offset: u32, len: u32 }`. -/
structure OffsetLen where
  offset : Nat
  len : Nat
  deriving DecidableEq, Repr

/-- The number of table entries in the header, one per table named in the
`metadata!` macro invocation (`string_literal` … `exported_type_definitions`). -/
def numMetadataTables : Nat := 31

/-- Sequential `binde` deserialization of one `OffsetLen` (two LE `u32`s). -/
def readOffsetLen (data : List Nat) (off : Nat) : Option OffsetLen := do
  let o ← readU32LE data off
  let l ← readU32LE data (off + 4)
  pure ⟨o, l⟩

/-- Sequential deserialization of `n` `OffsetLen` pairs starting at `off`. -/
def readOffsetLens (data : List Nat) : Nat → Nat → Option (List OffsetLen)
  | _, 0 => some []
  | off, n + 1 => do
    let hd ← readOffsetLen data off
    let tl ← readOffsetLens data (off + 8) n
    pure (hd :: tl)

/-- Mirror of `struct Il2CppGlobalMetadataHeader` (derived `BinaryDeserialize`:
`sanity`, `version`, then one `OffsetLen` per table, all little-endian). -/
structure Il2CppGlobalMetadataHeader where
  sanity : Nat
  version : Nat
  tables : List OffsetLen
  deriving DecidableEq, Repr

/-- Embeds the derived `Il2CppGlobalMetadataHeader::deserialize::<LittleEndian>`:
sequential LE field reads from offset 0; `none` models the `io::Error` on
truncated input. -/
def Il2CppGlobalMetadataHeader.deserialize (data : List Nat) :
    Option Il2CppGlobalMetadataHeader := do
  let s ← readU32LE data 0
  let v ← readU32LE data 4
  let ts ← readOffsetLens data 8 numMetadataTables
  pure ⟨s, v, ts⟩

/-- Mirror of `enum MetadataDeserializeError` (the `Bin(io::Error)` payload is
dropped). -/
inductive MetadataDeserializeError where
  | bin
  | sanityCheck
  | versionCheck (actual : Nat)
  deriving DecidableEq, Repr

/-- The table slices of `GlobalMetadata`, one raw byte slice per header entry.
Per-record decoding of the individual tables is modelled separately where a
claim needs it; at this level each table is the byte slice
`data[offset..offset+len]` that `GlobalMetadata::deserialize` hands to
`ReadMetadataTable::read` (empty when `len == 0`, `none` on truncation, which
the cursor reads surface as `io::Error`). -/
def GlobalMetadata.deserializeTables (data : List Nat)
    (header : Il2CppGlobalMetadataHeader) : Option (List (List Nat)) :=
  header.tables.mapM fun t =>
    if t.len = 0 then
      some []
    else
      let slice := (data.drop t.offset).take t.len
      if slice.length = t.len then some slice else none

/-- Embeds `pub fn deserialize(data: &[u8])`: header read, sanity check,
version check, then the table reads. -/
def deserialize (data : List Nat) :
    Except MetadataDeserializeError (List (List Nat)) :=
  match Il2CppGlobalMetadataHeader.deserialize data with
  | none => .error .bin
  | some header =>
    if header.sanity ≠ SANITY then .error .sanityCheck
    else if header.version ≠ VERSION then .error (.versionCheck header.version)
    else
      match GlobalMetadata.deserializeTables data header with
      | none => .error .bin
      | some tables => .ok tables

/-- Mirror of `enum MetadataParseError` (payload of `Binary` dropped). -/
inductive MetadataParseError where
  | globalMetadata (e : MetadataDeserializeError)
  | binary
  deriving DecidableEq, Repr

/-- Embeds `Metadata::parse`: global metadata first, then the runtime half.
The runtime reader (`RuntimeMetadata::read_elf`) is abstracted as the
parameter `readRuntime`, since it is modelled separately at the
instruction/byte level; `parse` only forwards its failure as `Binary`. -/
def Metadata.parse (readRuntime : List Nat → List (List Nat) → Except Unit Unit)
    (global : List Nat) (elf : List Nat) :
    Except MetadataParseError (List (List Nat) × Unit) :=
  match deserialize global with
  | .error e => .error (.globalMetadata e)
  | .ok gm =>
    match readRuntime elf gm with
    | .error _ => .error .binary
    | .ok rm => .ok (gm, rm)

/-! ## Runtime types (`src/runtime_metadata.rs`) and their record reader
(`src/runtime_metadata/elf.rs`, `Il2CppType::read`) -/

/-- Mirror of `enum Il2CppTypeEnum` (`end` and `class` are Lean keywords, so
those two constructors carry a trailing underscore). -/
inductive Il2CppTypeEnum where
  | end_
  | void
  | boolean
  | char
  | i1
  | u1
  | i2
  | u2
  | i4
  | u4
  | i8
  | u8
  | r4
  | r8
  | string
  | ptr
  | byref
  | valuetype
  | class_
  | var
  | array
  | genericinst
  | typedbyref
  | i
  | u
  | fnptr
  | object
  | szarray
  | mvar
  | cmodReqd
  | cmodOpt
  | internal
  | modifier
  | sentinel
  | pinned
  | enum
  deriving DecidableEq, Repr

/-- Embeds `Il2CppTypeEnum::from_ty` (the type kind byte table of §6.3). -/
def Il2CppTypeEnum.from_ty (ty : Nat) : Option Il2CppTypeEnum :=
  match ty with
  | 0x00 => some .end_
  | 0x01 => some .void
  | 0x02 => some .boolean
  | 0x03 => some .char
  | 0x04 => some .i1
  | 0x05 => some .u1
  | 0x06 => some .i2
  | 0x07 => some .u2
  | 0x08 => some .i4
  | 0x09 => some .u4
  | 0x0a => some .i8
  | 0x0b => some .u8
  | 0x0c => some .r4
  | 0x0d => some .r8
  | 0x0e => some .string
  | 0x0f => some .ptr
  | 0x10 => some .byref
  | 0x11 => some .valuetype
  | 0x12 => some .class_
  | 0x13 => some .var
  | 0x14 => some .array
  | 0x15 => some .genericinst
  | 0x16 => some .typedbyref
  | 0x18 => some .i
  | 0x19 => some .u
  | 0x1b => some .fnptr
  | 0x1c => some .object
  | 0x1d => some .szarray
  | 0x1e => some .mvar
  | 0x1f => some .cmodReqd
  | 0x20 => some .cmodOpt
  | 0x21 => some .internal
  | 0x40 => some .modifier
  | 0x41 => some .sentinel
  | 0x45 => some .pinned
  | 0x55 => some .enum
  | _ => none

/-- The Rust `Debug` rendering of each `Il2CppTypeEnum` variant, as used by
the `format!("({:?}?)", self.ty)` fallback of `full_name`. -/
def Il2CppTypeEnum.debugName : Il2CppTypeEnum → String
  | .end_ => "End"
  | .void => "Void"
  | .boolean => "Boolean"
  | .char => "Char"
  | .i1 => "I1"
  | .u1 => "U1"
  | .i2 => "I2"
  | .u2 => "U2"
  | .i4 => "I4"
  | .u4 => "U4"
  | .i8 => "I8"
  | .u8 => "U8"
  | .r4 => "R4"
  | .r8 => "R8"
  | .string => "String"
  | .ptr => "Ptr"
  | .byref => "Byref"
  | .valuetype => "Valuetype"
  | .class_ => "Class"
  | .var => "Var"
  | .array => "Array"
  | .genericinst => "Genericinst"
  | .typedbyref => "Typedbyref"
  | .i => "I"
  | .u => "U"
  | .fnptr => "Fnptr"
  | .object => "Object"
  | .szarray => "Szarray"
  | .mvar => "Mvar"
  | .cmodReqd => "CmodReqd"
  | .cmodOpt => "CmodOpt"
  | .internal => "Internal"
  | .modifier => "Modifier"
  | .sentinel => "Sentinel"
  | .pinned => "Pinned"
  | .enum => "Enum"

/-- Mirror of `enum TypeData`. -/
inductive TypeData where
  | typeDefinitionIndex (idx : Nat)
  | typeIndex (idx : Nat)
  | genericParameterIndex (idx : Nat)
  | genericClassIndex (idx : Nat)
  | arrayType (idx : Nat)
  deriving DecidableEq, Repr

/-- Mirror of `struct Il2CppType`. -/
structure Il2CppType where
  data : TypeData
  attrs : Nat
  ty : Il2CppTypeEnum
  byref : Bool
  pinned : Bool
  valuetype : Bool
  deriving DecidableEq, Repr

/-- The pointer→index environment available to `Il2CppType::read`:
`type_map` and `generic_class_map` are the `HashMap`s built by
`Il2CppMetadataRegistration::read` (a `none` lookup models the panicking
`map[&raw_data]` on a missing key); `resolveArray` is the combined
`array_type_map` lookup / lazy `Il2CppArrayType::read` memoisation, whose
net effect on the record is the array-type index assigned to the pointer
(`none` models a failing on-demand read). -/
structure TypeReadEnv where
  type_map : Nat → Option Nat
  generic_class_map : Nat → Option Nat
  resolveArray : Nat → Option Nat

/-- Embeds `Il2CppType::read`: a cursor at `pos` reads an 8-byte LE `data`
word, a 2-byte LE `attrs`, the kind byte (rejected via `InvalidType` when
unknown, modelled as `none`), and the flag byte, then resolves `data` per
kind and extracts the three flags with `(bitfield >> 5) != 0`,
`(bitfield >> 6) != 0`, `(bitfield >> 7) != 0`. -/
def Il2CppType.read (env : TypeReadEnv) (elf_rel : List Nat) (pos : Nat) :
    Option Il2CppType := do
  let raw_data ← readU64LE elf_rel pos
  let attrs ← readU16LE elf_rel (pos + 8)
  let ty_id ← readU8 elf_rel (pos + 10)
  let ty ← Il2CppTypeEnum.from_ty ty_id
  let bitfield ← readU8 elf_rel (pos + 11)
  let data ← match ty with
    | .var | .mvar => some (TypeData.genericParameterIndex (raw_data % 2 ^ 32))
    | .ptr | .szarray => (env.type_map raw_data).map TypeData.typeIndex
    | .array => (env.resolveArray raw_data).map TypeData.arrayType
    | .genericinst => (env.generic_class_map raw_data).map TypeData.genericClassIndex
    | _ => some (TypeData.typeDefinitionIndex (raw_data % 2 ^ 32))
  pure { data := data, attrs := attrs, ty := ty,
         byref := bitfield >>> 5 != 0,
         pinned := bitfield >>> 6 != 0,
         valuetype := bitfield >>> 7 != 0 }

/-! ## Index types (`index_type!` macro) and optional field accessors (C9) -/

/-- `u32::MAX`. -/
def u32MAX : Nat := 0xFFFFFFFF

/-- `u16::MAX`. -/
def u16MAX : Nat := 0xFFFF

/-- The `is_valid` body generated by the `index_type!` macro:
`self.0 != <$ty>::MAX`, with `max` instantiated to the backing integer's
maximum (`u32::MAX` for every table index except
`GenericParameterConstraintIndex`, which is backed by `u16`). -/
def indexIsValid (max idx : Nat) : Bool :=
  idx ≠ max

/-- The `Index` impl generated by `basic_table!`: `&self.table[index.0 as usize]`.
`none` models the `Vec` out-of-bounds panic. -/
def tableGet {α : Type} (table : List α) (idx : Nat) : Option α :=
  table.get? idx

/-- Mirror of `struct Il2CppGenericContainer` (all four fields `u32`). -/
structure Il2CppGenericContainer where
  owner_index : Nat
  type_argc : Nat
  is_method : Nat
  generic_parameter_start : Nat
  deriving DecidableEq, Repr

/-- Mirror of `struct Il2CppMethodDefinition` (tokens kept as `Token`, index
fields as their underlying `u32`). -/
structure Il2CppMethodDefinition where
  name_index : Nat
  declaring_type : Nat
  return_type : Nat
  return_parameter_token : Token
  parameter_start : Nat
  generic_container_index : Nat
  token : Token
  flags : Nat
  iflags : Nat
  slot : Nat
  parameter_count : Nat
  deriving DecidableEq, Repr

/-- Embeds the `field_helper_optional!`-generated accessor
`Il2CppMethodDefinition::generic_container`: `None` when the stored index is
not valid, otherwise the indexed row of the generic-containers table.  The
outer `Option` layer models the indexing panic (`none` = panic); the Rust
`Option` return value is the inner layer. -/
def Il2CppMethodDefinition.generic_container (m : Il2CppMethodDefinition)
    (generic_containers : List Il2CppGenericContainer) :
    Option (Option Il2CppGenericContainer) :=
  match indexIsValid u32MAX m.generic_container_index with
  | false => some none
  | true =>
    match tableGet generic_containers m.generic_container_index with
    | none => none
    | some gc => some (some gc)

/-! ## The linked metadata model and `full_name` (C5, C10)

The runtime-metadata registration tables and the slice of the global
metadata reached by `Il2CppType::full_name`.  String indices
(`name_index`/`namespace_index` through the NUL-terminated UTF-8 heap) are
modelled as the already-resolved strings; fields of the 92-byte
`Il2CppTypeDefinition` record not reachable from `full_name` are omitted. -/

/-- Mirror of `struct Il2CppArrayType`. -/
structure Il2CppArrayType where
  elem_ty : Nat
  rank : Nat
  sizes : List Nat
  lower_bounds : List Nat
  deriving DecidableEq, Repr

/-- Mirror of `struct Il2CppGenericContext`: both instantiation indices are
optional (`generic_inst_map.get(..).copied()`). -/
structure Il2CppGenericContext where
  class_inst_idx : Option Nat
  method_inst_idx : Option Nat
  deriving DecidableEq, Repr

/-- Mirror of `struct Il2CppGenericClass`. -/
structure Il2CppGenericClass where
  type_index : Nat
  context : Il2CppGenericContext
  deriving DecidableEq, Repr

/-- Mirror of `struct Il2CppGenericInst`: the contained type indices. -/
structure Il2CppGenericInst where
  types : List Nat
  deriving DecidableEq, Repr

/-- The fields of `struct Il2CppMetadataRegistration` used by `full_name`. -/
structure Il2CppMetadataRegistration where
  generic_classes : List Il2CppGenericClass
  generic_insts : List Il2CppGenericInst
  types : List Il2CppType
  array_types : List Il2CppArrayType
  deriving DecidableEq, Repr

/-- `struct Il2CppGenericParameter` with `name_index` resolved to the string. -/
structure Il2CppGenericParameterM where
  owner_index : Nat
  name : String
  constraints_start : Nat
  constraints_count : Nat
  num : Nat
  flags : Nat
  deriving DecidableEq, Repr

/-- The fields of `struct Il2CppTypeDefinition` read by its `full_name`
(`name_index`/`namespace_index` resolved to strings). -/
structure Il2CppTypeDefinitionM where
  name : String
  namespaceStr : String
  declaring_type_index : Nat
  generic_container_index : Nat
  deriving DecidableEq, Repr

/-- The global-metadata tables reached by `full_name`. -/
structure GlobalMetadataM where
  type_definitions : List Il2CppTypeDefinitionM
  generic_parameters : List Il2CppGenericParameterM
  generic_containers : List Il2CppGenericContainer
  deriving DecidableEq, Repr

/-- The `Metadata` pair as seen by `full_name`. -/
structure MetadataM where
  global_metadata : GlobalMetadataM
  metadata_registration : Il2CppMetadataRegistration
  deriving DecidableEq, Repr

/-- `Index::make_range` from the `index_type!` macro: `start..start+count`
when `count > 0`, else the empty range `0..0`. -/
def make_range (start count : Nat) : Nat × Nat :=
  if count > 0 then (start, start + count) else (0, 0)

/-- Rust slice indexing `&table[a..b]`: `none` models the slicing panic when
the range is ill-formed or runs past the table. -/
def sliceRange {α : Type} (l : List α) (r : Nat × Nat) : Option (List α) :=
  if r.1 ≤ r.2 ∧ r.2 ≤ l.length then some ((l.drop r.1).take (r.2 - r.1)) else none

/-- Embeds `Il2CppGenericContainer::to_string`: angle-bracketed,
comma-separated generic parameter names of the container's range. -/
def Il2CppGenericContainer.containerString (gc : Il2CppGenericContainer)
    (md : MetadataM) : Option String := do
  let params ← sliceRange md.global_metadata.generic_parameters
    (make_range gc.generic_parameter_start gc.type_argc)
  pure ("<" ++ String.intercalate ", " (params.map (fun p => p.name)) ++ ">")

mutual

/-- Embeds `Il2CppTypeDefinition::full_name`: optional namespace prefix, a
`declaring::` prefix through the runtime types when `declaring_type_index`
is not `u32::MAX`, the name, and the generic parameter list when present and
requested.  `fuel` bounds the recursion through the runtime type graph
(which the source does not bound); `none` models a panic or fuel exhaustion. -/
def Il2CppTypeDefinitionM.full_name (fuel : Nat) (md : MetadataM)
    (td : Il2CppTypeDefinitionM) (with_generics : Bool) : Option String :=
  match fuel with
  | 0 => none
  | fuel + 1 => do
    let nsPart := if td.namespaceStr.isEmpty then "" else td.namespaceStr ++ "."
    let declPart ←
      if td.declaring_type_index ≠ u32MAX then do
        let dt ← md.metadata_registration.types.get? td.declaring_type_index
        let s ← Il2CppType.full_name fuel md dt
        pure (s ++ "::")
      else
        pure ""
    let genPart ←
      if indexIsValid u32MAX td.generic_container_index ∧ with_generics = true then do
        let gc ← md.global_metadata.generic_containers.get? td.generic_container_index
        gc.containerString md
      else
        pure ""
    pure (nsPart ++ declPart ++ td.name ++ genPart)
termination_by structural fuel

/-- Embeds `Il2CppType::full_name`: the primitive-kind table (exactly as in
the source, including its `U8 => "System.Int64"`, `I8 => "System.UInt64"`
and `R4 => "System.Float"` arms), then the `(ty, data)` dispatch. -/
def Il2CppType.full_name (fuel : Nat) (md : MetadataM) (t : Il2CppType) :
    Option String :=
  match fuel with
  | 0 => none
  | fuel + 1 =>
    match t.ty with
    | .void => some "System.Void"
    | .boolean => some "System.Boolean"
    | .char => some "System.Char"
    | .i1 => some "System.SByte"
    | .u1 => some "System.Byte"
    | .i2 => some "System.Int16"
    | .u2 => some "System.UInt16"
    | .i4 => some "System.Int32"
    | .u4 => some "System.UInt32"
    | .u8 => some "System.Int64"
    | .i8 => some "System.UInt64"
    | .r4 => some "System.Float"
    | .r8 => some "System.Double"
    | .string => some "System.String"
    | .typedbyref => some "System.TypedReference"
    | .i => some "System.IntPtr"
    | .u => some "System.UIntPtr"
    | .object => some "System.Object"
    | .sentinel => some "<<SENTINEL>>"
    | _ =>
      match t.ty, t.data with
      | .var, .genericParameterIndex idx | .mvar, .genericParameterIndex idx =>
        (md.global_metadata.generic_parameters.get? idx).map (fun p => p.name)
      | .ptr, .typeIndex ty_idx => do
        let e ← md.metadata_registration.types.get? ty_idx
        let s ← Il2CppType.full_name fuel md e
        pure (s ++ "*")
      | .szarray, .typeIndex ty_idx => do
        let e ← md.metadata_registration.types.get? ty_idx
        let s ← Il2CppType.full_name fuel md e
        pure (s ++ "[]")
      | .array, .arrayType arr_ty_idx => do
        let arr_type ← md.metadata_registration.array_types.get? arr_ty_idx
        let e ← md.metadata_registration.types.get? arr_type.elem_ty
        let s ← Il2CppType.full_name fuel md e
        pure (s ++ "[" ++ String.mk (List.replicate (arr_type.rank - 1) ',') ++ "]")
      | .class_, .typeDefinitionIndex ty_idx
      | .valuetype, .typeDefinitionIndex ty_idx => do
        let td ← md.global_metadata.type_definitions.get? ty_idx
        Il2CppTypeDefinitionM.full_name fuel md td false
      | .genericinst, .genericClassIndex gci => do
        let gc ← md.metadata_registration.generic_classes.get? gci
        let instIdx ← gc.context.class_inst_idx
        let inst ← md.metadata_registration.generic_insts.get? instIdx
        let args ← fullNameList md fuel inst.types
        let bt ← md.metadata_registration.types.get? gc.type_index
        let base ← Il2CppType.full_name fuel md bt
        pure (base ++ "<" ++ String.intercalate ", " args ++ ">")
      | _, _ => some ("(" ++ t.ty.debugName ++ "?)")
termination_by structural fuel

/-- The `inst.types.iter().map(|ty| types[*ty].full_name(metadata))` loop of
the `Genericinst` arm, as explicit recursion over the index list (each step
also consumes fuel, so that the mutual recursion is structural on `fuel`). -/
def fullNameList (md : MetadataM) : Nat → List Nat → Option (List String)
  | _, [] => some []
  | 0, _ :: _ => none
  | fuel + 1, tyi :: rest => do
    let e ← md.metadata_registration.types.get? tyi
    let s ← Il2CppType.full_name fuel md e
    let tl ← fullNameList md fuel rest
    pure (s :: tl)
termination_by structural fuel _ => fuel

end

/-! ## ELF view and byte-level readers (`src/runtime_metadata/elf.rs`) -/

/-- A loadable segment as consumed by `vaddr_conv`: `segment.address()`,
`segment.size()` and `segment.file_range().0`. -/
structure Segment where
  address : Nat
  size : Nat
  fileStart : Nat
  deriving DecidableEq, Repr

/-- A dynamic relocation as consumed by `process_relocations`: the target
virtual address, the `RelocationKind::Elf(..)` number, the addend already
cast `as u64`, and whether `rel.target()` is `RelocationTarget::Absolute`. -/
structure Reloc where
  addr : Nat
  kind : Nat
  addend : Nat
  absolute : Bool
  deriving DecidableEq, Repr

/-- The parts of the parsed `ElfFile64` used by the runtime reader:
loadable segments in iteration order, the `.bss` section as
(address, size) when present, the dynamic relocations, and the raw file
bytes `elf.data()`. -/
structure ElfView where
  segments : List Segment
  bss : Option (Nat × Nat)
  relocations : List Reloc
  data : List Nat

/-- Embeds `vaddr_conv`: walk the segments in order, picking the first whose
`[address, address + size)` contains `vaddr`; `none` models the
`VAddrConv(vaddr)` error. -/
def vaddr_conv (segs : List Segment) (vaddr : Nat) : Option Nat :=
  match segs with
  | [] => none
  | seg :: rest =>
    if seg.address ≤ vaddr ∧ vaddr - seg.address < seg.size then
      some (seg.fileStart + (vaddr - seg.address))
    else
      vaddr_conv rest vaddr

/-- Embeds `addr_in_bss`: `bss.address() <= vaddr && vaddr - bss.address()
< bss.size()`, false when there is no `.bss` section. -/
def addr_in_bss (elf : ElfView) (vaddr : Nat) : Bool :=
  match elf.bss with
  | some (address, size) => decide (address ≤ vaddr) && decide (vaddr - address < size)
  | none => false

/-- Embeds `strlen`: the distance to the first NUL at or after `offset`
(`none` models the panic when the loop runs off the end of the data). -/
def strlen (data : List Nat) (off : Nat) : Option Nat :=
  (data.drop off).findIdx? (fun b => b = 0)

/-- Embeds `get_str`, returning the raw bytes of the NUL-terminated run
(the `str::from_utf8` validation layer is not modelled; no claim concerns
it). -/
def get_str (data : List Nat) (off : Nat) : Option (List Nat) := do
  let len ← strlen data off
  pure ((data.drop off).take len)

/-- `cursor.read_le()` loop for `u64` elements: `len` LE `u64`s at `pos`. -/
def readU64s (data : List Nat) : Nat → Nat → Option (List Nat)
  | _, 0 => some []
  | pos, len + 1 => do
    let v ← readU64LE data pos
    let rest ← readU64s data (pos + 8) len
    pure (v :: rest)

/-- `cursor.read_le()` loop for `u32` elements. -/
def readU32s (data : List Nat) : Nat → Nat → Option (List Nat)
  | _, 0 => some []
  | pos, len + 1 => do
    let v ← readU32LE data pos
    let rest ← readU32s data (pos + 4) len
    pure (v :: rest)

/-- Round `p` up to a multiple of `a` (the `align_before = 8` directive). -/
def alignUp (p a : Nat) : Nat :=
  (p + a - 1) / a * a

/-- `cursor.read_le()` loop for `Il2CppTokenAdjustorThunkPair` elements:
a `u32` token, alignment to 8, then the `u64` adjustor thunk. -/
def readAdjustorPairs (data : List Nat) : Nat → Nat → Option (List (Token × Nat))
  | _, 0 => some []
  | pos, len + 1 => do
    let token ← readU32LE data pos
    let p2 := alignUp (pos + 4) 8
    let thunk ← readU64LE data p2
    let rest ← readAdjustorPairs data (p2 + 8) len
    pure ((⟨token⟩, thunk) :: rest)

/-- `cursor.read_le()` loop for `Il2CppTokenRangePair` elements: a `u32`
token and an `Il2CppRange { start: u32, length: u32 }`. -/
def readTokenRangePairs (data : List Nat) :
    Nat → Nat → Option (List (Token × Nat × Nat))
  | _, 0 => some []
  | pos, len + 1 => do
    let token ← readU32LE data pos
    let start ← readU32LE data (pos + 4)
    let length ← readU32LE data (pos + 8)
    let rest ← readTokenRangePairs data (pos + 12) len
    pure ((⟨token⟩, start, length) :: rest)

/-- `cursor.read_le()` loop for `Il2CppRGCTXDefinition` elements: the
`u64`-repr `Il2CppRGCTXDataType` discriminant (6 variants; an out-of-range
value is a `binread` error, modelled as `none`) and the `u64` data word. -/
def readRGCTXs (data : List Nat) : Nat → Nat → Option (List (Nat × Nat))
  | _, 0 => some []
  | pos, len + 1 => do
    let ty ← readU64LE data pos
    if ty < 6 then do
      let d ← readU64LE data (pos + 8)
      let rest ← readRGCTXs data (pos + 16) len
      pure ((ty, d) :: rest)
    else
      none

/-- Embeds `read_arr`: `make_cur(vaddr)` then `len` element reads. -/
def read_arr {α : Type} (readElems : List Nat → Nat → Nat → Option (List α))
    (elf : ElfView) (elf_rel : List Nat) (vaddr : Nat) (len : Nat) :
    Option (List α) := do
  let pos ← vaddr_conv elf.segments vaddr
  readElems elf_rel pos len

/-- Embeds `read_len_arr`: a `u32` count, a `u32` of padding and a `u64`
target address at the cursor, then `read_arr` at the target.  Returns the
array together with the advanced cursor position. -/
def read_len_arr {α : Type} (readElems : List Nat → Nat → Nat → Option (List α))
    (elf : ElfView) (elf_rel : List Nat) (pos : Nat) :
    Option (List α × Nat) := do
  let count ← readU32LE elf_rel pos
  let _padding ← readU32LE elf_rel (pos + 4)
  let addr ← readU64LE elf_rel (pos + 8)
  let arr ← read_arr readElems elf elf_rel addr count
  pure (arr, pos + 16)

/-- Embeds `read_len_arr_nullable`: like `read_len_arr`, but when the target
address lies in `.bss` the result is `count` copies of `Default::default()`
and the target is not read. -/
def read_len_arr_nullable {α : Type}
    (readElems : List Nat → Nat → Nat → Option (List α)) (default : α)
    (elf : ElfView) (elf_rel : List Nat) (pos : Nat) :
    Option (List α × Nat) := do
  let count ← readU32LE elf_rel pos
  let _padding ← readU32LE elf_rel (pos + 4)
  let addr ← readU64LE elf_rel (pos + 8)
  if addr_in_bss elf addr then
    pure (List.replicate count default, pos + 16)
  else do
    let arr ← read_arr readElems elf elf_rel addr count
    pure (arr, pos + 16)

/-- Mirror of `struct Il2CppCodeGenModule` (the name as raw bytes; adjustor
thunks as (token, thunk) pairs; RGCTX ranges as (token, start, length);
RGCTX definitions as (type, data)). -/
structure Il2CppCodeGenModuleM where
  name : List Nat
  method_pointers : List Nat
  adjustor_thunks : List (Token × Nat)
  invoker_indices : List Nat
  rgctx_ranges : List (Token × Nat × Nat)
  rgctxs : List (Nat × Nat)
  deriving DecidableEq, Repr

/-- Embeds `Il2CppCodeGenModule::read`: name pointer resolved as a string in
the original file bytes, nullable counted method pointers, counted adjustor
thunks, an invoker-index array whose length is the method-pointer count, a
skipped `u128`, counted RGCTX ranges and counted RGCTX definitions. -/
def Il2CppCodeGenModuleM.read (elf : ElfView) (elf_rel : List Nat)
    (vaddr : Nat) : Option Il2CppCodeGenModuleM := do
  let pos ← vaddr_conv elf.segments vaddr
  let name_ptr ← readU64LE elf_rel pos
  let name ← do
    let p ← vaddr_conv elf.segments name_ptr
    get_str elf.data p
  let (method_pointers, pos) ←
    read_len_arr_nullable readU64s 0 elf elf_rel (pos + 8)
  let (adjustor_thunks, pos) ← read_len_arr readAdjustorPairs elf elf_rel pos
  let addr ← readU64LE elf_rel pos
  let invoker_indices ←
    read_arr readU32s elf elf_rel addr method_pointers.length
  let pos := pos + 8 + 16
  let (rgctx_ranges, pos) ← read_len_arr readTokenRangePairs elf elf_rel pos
  let (rgctxs, _pos) ← read_len_arr readRGCTXs elf elf_rel pos
  pure ⟨name, method_pointers, adjustor_thunks, invoker_indices,
    rgctx_ranges, rgctxs⟩

/-! ## Relocation processing (`process_relocations`) -/

/-- A `Cursor<&mut Vec<u8>>` write of `bytes` at `pos`: the buffer is
zero-padded up to `pos` when the position is past the end, and grows as
needed. -/
def writeBytesAt (data : List Nat) (pos : Nat) (bytes : List Nat) : List Nat :=
  let padded := data ++ List.replicate (pos - data.length) 0
  padded.take pos ++ bytes ++ padded.drop (pos + bytes.length)

/-- The relocation loop of `process_relocations`: skip kinds other than
`R_AARCH64_RELATIVE` (1027); for kind 1027, assert the target is absolute
(`none` models the `assert_eq!` panic), convert the target address and
write the 8 addend bytes little-endian. -/
def process_relocations_go (segs : List Segment) :
    List Reloc → List Nat → Option (List Nat)
  | [], acc => some acc
  | r :: rest, acc =>
    if r.kind ≠ 1027 then
      process_relocations_go segs rest acc
    else if r.absolute = false then
      none
    else
      match vaddr_conv segs r.addr with
      | none => none
      | some p =>
        process_relocations_go segs rest (writeBytesAt acc p (leBytes r.addend 8))

/-- Embeds `process_relocations`: a mutable copy of `elf.data()` with every
`R_AARCH64_RELATIVE` dynamic relocation applied. -/
def process_relocations (elf : ElfView) : Option (List Nat) :=
  process_relocations_go elf.segments elf.relocations elf.data

/-- A small ELF-view fixture: one identity-mapped segment covering
`[0, 1000)` and a `.bss` section at `[500, 600)`. -/
def sampleElf : ElfView :=
  ⟨[⟨0, 1000, 0⟩], some (500, 100), [], []⟩

/-- The `sampleElf` layout with file bytes holding a NUL-terminated name at
offset 96 (for the code-gen-module fixture). -/
def sampleModuleElf : ElfView :=
  ⟨[⟨0, 1000, 0⟩], some (500, 100), [], List.replicate 96 0 ++ [65, 0]⟩

/-- Relocated-byte fixture holding one `Il2CppCodeGenModule` record at
offset 0: name pointer 96, one method pointer whose array address (500)
lies in `.bss`, an empty adjustor-thunk array, an invoker-index array at
address 96, and empty RGCTX tables. -/
def sampleModuleBytes : List Nat :=
  [96, 0, 0, 0, 0, 0, 0, 0,
   1, 0, 0, 0, 0, 0, 0, 0,
   244, 1, 0, 0, 0, 0, 0, 0] ++
  List.replicate 16 0 ++
  [96, 0, 0, 0, 0, 0, 0, 0] ++
  List.replicate 48 0 ++
  [7, 0, 0, 0]

/-! ## Write-list decomposition of the relocation pass (C8) -/

/-- The file-offset/addend write list that the relocation loop performs:
one `(converted offset, addend)` pair per `R_AARCH64_RELATIVE` relocation,
in relocation order; `none` when a conversion fails or an assert fires. -/
def relocWrites (segs : List Segment) : List Reloc → Option (List (Nat × Nat))
  | [] => some []
  | r :: rest =>
    if r.kind ≠ 1027 then relocWrites segs rest
    else if r.absolute = false then none
    else
      match vaddr_conv segs r.addr with
      | none => none
      | some p => (relocWrites segs rest).map (fun ws => (p, r.addend) :: ws)

/-- Apply a list of 8-byte little-endian writes in order. -/
def applyWrites : List (Nat × Nat) → List Nat → List Nat
  | [], acc => acc
  | (p, v) :: rest, acc => applyWrites rest (writeBytesAt acc p (leBytes v 8))

/-- The last write of the list covering position `i`, if any. -/
def lastCover : List (Nat × Nat) → Nat → Option (Nat × Nat)
  | [], _ => none
  | pv :: rest, i =>
    match lastCover rest i with
    | some x => some x
    | none => if pv.1 ≤ i ∧ i < pv.1 + 8 then some pv else none

/-- One past the largest position any of the writes touches. -/
def writesEnd : List (Nat × Nat) → Nat
  | [] => 0
  | (p, _) :: rest => max (p + 8) (writesEnd rest)

/-- Fixture for the relocation pass: one identity-mapped segment, one
`R_AARCH64_RELATIVE` relocation at virtual address 4 with addend 258, and
one ignored relocation of kind 5. -/
def sampleRelocElf : ElfView :=
  ⟨[⟨0, 100, 0⟩], none, [⟨4, 1027, 258, true⟩, ⟨0, 5, 999, true⟩],
    List.replicate 16 7⟩

/-- The relocated bytes of `sampleRelocElf`: addend 258 little-endian at
offset 4, everything else untouched. -/
def sampleRelocOut : List Nat :=
  [7, 7, 7, 7, 2, 1, 0, 0, 0, 0, 0, 0, 7, 7, 7, 7]

/-! ## ARM64 registration locator (`find_registration` and helpers, C6) -/

/-- The subset of `Il2CppBinaryError` reachable from `find_registration`
(payloads of the byte-level variants dropped). -/
inductive Il2CppBinaryErrorM where
  | disassemble
  | vaddrConv (v : Nat)
  | missingIl2CppInit
  | missingBlr
  | missingRegistration
  | invalidType (b : Nat)
  | io
  | utf8
  | elfErr
  deriving DecidableEq, Repr

/-- A fallible computation: value, `Il2CppBinaryError`, or panic (`unwrap`
on `None`, `HashMap` index on a missing key, slice out of bounds, or the
unbounded scan loop running off; the Rust code aborts rather than
returning in all of those). -/
inductive Outcome (α : Type) where
  | ok (a : α)
  | err (e : Il2CppBinaryErrorM)
  | panic
  deriving DecidableEq, Repr

/-- The instruction shapes `find_registration` and `analyze_reg_rel`
distinguish: `ADRP Xd, label` (label already resolved by the disassembler),
`ADD Xd, Xn, #imm`, `LDR Xd, [Xn, #imm]`, `BL label`, `BLR Xn`; everything
else is `other`. -/
inductive AInstr where
  | adrp (reg imm : Nat)
  | add (dst src imm : Nat)
  | ldr (dst src : Nat) (imm : Int)
  | bl (target : Nat)
  | blr (reg : Nat)
  | other
  deriving DecidableEq, Repr

/-- The ELF as seen by the ARM64 code scanner: the byte-level view (for
`vaddr_conv` and data bounds), the dynamic symbol table, and the
disassembly oracle giving the decoded instruction at a file offset
(`none` models a `bad64` `DecodeError`). -/
structure Arm64Elf where
  elf : ElfView
  dynamic_symbols : List (String × Nat)
  decode : Nat → Option AInstr

/-- Embeds `elf.dynamic_symbols().find(|s| s.name() == Ok(name))`. -/
def findDynamicSymbol (syms : List (String × Nat)) (name : String) : Option Nat :=
  (syms.find? (fun s => s.1 = name)).map (fun s => s.2)

/-- Reading and disassembling the 4 bytes at a file offset:
out-of-bounds slicing panics, an undecodable word is `Disassemble`. -/
def fetchInstr (e : Arm64Elf) (offset : Nat) : Outcome AInstr :=
  if offset + 4 ≤ e.elf.data.length then
    match e.decode offset with
    | some i => .ok i
    | none => .err .disassemble
  else
    .panic

/-- The scan loop of `nth_bl` (`for i in 0..`): unbounded in the source, so
it carries explicit fuel; exhaustion is a non-returning run, folded into
`panic`. -/
def nth_bl_go (e : Arm64Elf) : Nat → Nat → Nat → Outcome Nat
  | _, _, 0 => .panic
  | offset, n, fuel + 1 =>
    match fetchInstr e offset with
    | .panic => .panic
    | .err er => .err er
    | .ok (.bl target) =>
      if n ≤ 1 then .ok target else nth_bl_go e (offset + 4) (n - 1) fuel
    | .ok _ => nth_bl_go e (offset + 4) n fuel

/-- Embeds `nth_bl`: convert the start address, then scan for the `n`-th
`BL` and return its target. -/
def nth_bl (e : Arm64Elf) (addr : Nat) (n : Nat) (fuel : Nat) : Outcome Nat :=
  match vaddr_conv e.elf.segments addr with
  | none => .err (.vaddrConv addr)
  | some offset => nth_bl_go e offset n fuel

/-- The bounded scan loop of `find_blr`. -/
def find_blr_go (e : Arm64Elf) : Nat → Nat → Outcome (Option (Nat × Nat))
  | _, 0 => .ok none
  | offset, limit + 1 =>
    match fetchInstr e offset with
    | .panic => .panic
    | .err er => .err er
    | .ok (.blr r) => .ok (some (offset, r))
    | .ok _ => find_blr_go e (offset + 4) limit

/-- Embeds `find_blr`: the first `BLR` within `limit` instructions of
`addr`, returned as (file offset, register). -/
def find_blr (e : Arm64Elf) (addr : Nat) (limit : Nat) :
    Outcome (Option (Nat × Nat)) :=
  match vaddr_conv e.elf.segments addr with
  | none => .err (.vaddrConv addr)
  | some offset => find_blr_go e offset limit

/-- `try_disassemble` over `elf.data()[a..b]` in 4-byte steps (a malformed
range panics at the slicing; an undecodable word is `Disassemble`). -/
def disasmRange_go (e : Arm64Elf) : Nat → Nat → Outcome (List AInstr)
  | _, 0 => .ok []
  | offset, k + 1 =>
    match e.decode offset with
    | none => .err .disassemble
    | some i =>
      match disasmRange_go e (offset + 4) k with
      | .ok l => .ok (i :: l)
      | .err er => .err er
      | .panic => .panic

/-- `try_disassemble(&elf.data()[a..b], ..)`. -/
def disasmRange (e : Arm64Elf) (a b : Nat) : Outcome (List AInstr) :=
  if a ≤ b ∧ b ≤ e.elf.data.length then disasmRange_go e a ((b - a) / 4)
  else .panic

/-- `HashMap<Reg, u64>` as an association list: lookup. -/
def regLookup (m : List (Nat × Nat)) (r : Nat) : Option Nat :=
  (m.find? (fun p => p.1 = r)).map (fun p => p.2)

/-- `HashMap::insert`. -/
def regInsert (m : List (Nat × Nat)) (r v : Nat) : List (Nat × Nat) :=
  (r, v) :: m.filter (fun p => p.1 ≠ r)

/-- Embeds `analyze_reg_rel`: propagate `ADRP` (insert), `ADD Xd, Xd, #imm`
(modify if present, wrapping `u64` add) and `LDR Xd, [Xd, #imm]` (modify if
present by reading 8 bytes of `elf_rel` at the converted address; the two
in-source `unwrap`s make a failed conversion or read a panic, modelled as
`none`).  Any other instruction, a mismatched register pair, or an absent
entry leaves the map unchanged. -/
def analyze_reg_rel (e : Arm64Elf) (elf_rel : List Nat) :
    List AInstr → List (Nat × Nat) → Option (List (Nat × Nat))
  | [], m => some m
  | ins :: rest, m =>
    match ins with
    | .adrp r imm => analyze_reg_rel e elf_rel rest (regInsert m r imm)
    | .add a b imm =>
      if a ≠ b then
        analyze_reg_rel e elf_rel rest m
      else
        match regLookup m a with
        | none => analyze_reg_rel e elf_rel rest m
        | some v =>
          analyze_reg_rel e elf_rel rest (regInsert m a ((v + imm) % 2 ^ 64))
    | .ldr a b imm =>
      if a ≠ b then
        analyze_reg_rel e elf_rel rest m
      else
        match regLookup m a with
        | none => analyze_reg_rel e elf_rel rest m
        | some v =>
          match vaddr_conv e.elf.segments (((v : Int) + imm).emod (2 ^ 64)).toNat with
          | none => none
          | some off =>
            match readU64LE elf_rel off with
            | none => none
            | some w => analyze_reg_rel e elf_rel rest (regInsert m a w)
    | _ => analyze_reg_rel e elf_rel rest m

/-- Embeds `find_registration`: find `il2cpp_init` (else
`MissingIl2CppInit`), follow the second `BL` to `Runtime::Init`, find the
first `BLR` within 200 instructions (else `MissingBlr`), analyse the
instructions before it to resolve the branch register, disassemble the
first seven instructions of the setter and analyse them, and return
`(regs[X0], regs[X1])`.  The `regs[..]` `HashMap` indexing panics on a
missing key — the declared `MissingRegistration` error is never
constructed. -/
def find_registration (e : Arm64Elf) (elf_rel : List Nat) (fuel : Nat) :
    Outcome (Nat × Nat) :=
  match findDynamicSymbol e.dynamic_symbols "il2cpp_init" with
  | none => .err .missingIl2CppInit
  | some il2cpp_init =>
    match nth_bl e il2cpp_init 2 fuel with
    | .err er => .err er
    | .panic => .panic
    | .ok runtime_init =>
      match vaddr_conv e.elf.segments runtime_init with
      | none => .err (.vaddrConv runtime_init)
      | some runtime_init_offset =>
        match find_blr e runtime_init 200 with
        | .err er => .err er
        | .panic => .panic
        | .ok none => .err .missingBlr
        | .ok (some (blr_offset, blr_reg)) =>
          match disasmRange e runtime_init_offset blr_offset with
          | .err er => .err er
          | .panic => .panic
          | .ok instructions =>
            match analyze_reg_rel e elf_rel instructions [] with
            | none => .panic
            | some regs =>
              match regLookup regs blr_reg with
              | none => .panic
              | some fnv =>
                match vaddr_conv e.elf.segments fnv with
                | none => .err (.vaddrConv fnv)
                | some fn_addr =>
                  match disasmRange e fn_addr (fn_addr + 7 * 4) with
                  | .err er => .err er
                  | .panic => .panic
                  | .ok instructions2 =>
                    match analyze_reg_rel e elf_rel instructions2 [] with
                    | none => .panic
                    | some regs2 =>
                      match regLookup regs2 0, regLookup regs2 1 with
                      | some x0, some x1 => .ok (x0, x1)
                      | _, _ => .panic
/-- Arm64 fixture with no `il2cpp_init` dynamic symbol. -/
def arm64NoInit : Arm64Elf :=
  ⟨⟨[⟨0, 1000, 0⟩], none, [], []⟩, [], fun _ => some .other⟩

/-- Arm64 fixture whose runtime-init routine (reached through the second
`BL`) contains no `BLR` within 200 instructions. -/
def arm64NoBlr : Arm64Elf :=
  ⟨⟨[⟨0, 1000, 0⟩], none, [], List.replicate 816 0⟩, [("il2cpp_init", 0)],
    fun o => if o = 0 then some (.bl 4) else if o = 4 then some (.bl 8)
      else some .other⟩

/-- Arm64 fixture whose `BLR` register was never given a value by the
preceding instructions, so the register map lookup has no entry. -/
def arm64NoReg : Arm64Elf :=
  ⟨⟨[⟨0, 1000, 0⟩], none, [], List.replicate 16 0⟩, [("il2cpp_init", 0)],
    fun o => if o = 0 then some (.bl 4) else if o = 4 then some (.bl 8)
      else if o = 8 then some (.blr 5) else some .other⟩

/-! ## Theorems for claim C1 -/

/-- Helper: a 4-byte little-endian read succeeds on data long enough. -/
theorem readU32LE_isSome (data : List Nat) (off : Nat) (h : off + 4 ≤ data.length) :
    (readU32LE data off).isSome := by
  have h0 : off < data.length := by omega
  have h1 : off + 1 < data.length := by omega
  have h2 : off + 2 < data.length := by omega
  have h3 : off + 3 < data.length := by omega
  simp [readU32LE, List.get?_eq_get, h0, h1, h2, h3]

/-- Helper: reading `n` offset/length pairs succeeds on data long enough. -/
theorem readOffsetLens_isSome (data : List Nat) (n : Nat) :
    ∀ off, off + 8 * n ≤ data.length → (readOffsetLens data off n).isSome := by
  induction n with
  | zero => intro off _; simp [readOffsetLens]
  | succ k ih =>
    intro off h
    have hh : (readOffsetLen data off).isSome := by
      have h1 : (readU32LE data off).isSome := readU32LE_isSome data off (by omega)
      have h2 : (readU32LE data (off + 4)).isSome :=
        readU32LE_isSome data (off + 4) (by omega)
      rcases Option.isSome_iff_exists.mp h1 with ⟨a, ha⟩
      rcases Option.isSome_iff_exists.mp h2 with ⟨b, hb⟩
      simp [readOffsetLen, ha, hb]
    rcases Option.isSome_iff_exists.mp hh with ⟨x, hx⟩
    have ht := ih (off + 8) (by omega)
    rcases Option.isSome_iff_exists.mp ht with ⟨y, hy⟩
    simp [readOffsetLens, hx, hy]

/-- Helper: on data at least as long as the fixed header (8 + 31·8 = 256
bytes), the header deserializes, with `sanity` the first LE word and
`version` the second. -/
theorem header_deserialize_eq (data : List Nat) (s v : Nat)
    (h : 256 ≤ data.length)
    (hs : readU32LE data 0 = some s) (hv : readU32LE data 4 = some v) :
    ∃ ts, Il2CppGlobalMetadataHeader.deserialize data = some ⟨s, v, ts⟩ := by
  have hts : (readOffsetLens data 8 numMetadataTables).isSome :=
    readOffsetLens_isSome data numMetadataTables 8 (by
      simp only [numMetadataTables]
      omega)
  rcases Option.isSome_iff_exists.mp hts with ⟨ts, hts⟩
  exact ⟨ts, by simp [Il2CppGlobalMetadataHeader.deserialize, hs, hv, hts]⟩

set_option maxRecDepth 8000 in
/-- C1: on bytes long enough to hold the fixed header, if the first LE word
differs from `0xFAB11BAF` then both `deserialize` and `Metadata::parse` fail
with `SanityCheck`; if the sanity word is right but the second LE word is not
31, they fail with `VersionCheck` carrying that exact word.  In both cases the
error is wrapped as `GlobalMetadata` by `Metadata::parse` and no metadata
object is produced. -/
theorem global_header_validation
    (readRuntime : List Nat → List (List Nat) → Except Unit Unit)
    (data elf : List Nat) (s v : Nat)
    (h : 256 ≤ data.length)
    (hs : readU32LE data 0 = some s) (hv : readU32LE data 4 = some v) :
    (s ≠ SANITY →
      deserialize data = .error .sanityCheck ∧
      Metadata.parse readRuntime data elf = .error (.globalMetadata .sanityCheck)) ∧
    (s = SANITY → v ≠ VERSION →
      deserialize data = .error (.versionCheck v) ∧
      Metadata.parse readRuntime data elf =
        .error (.globalMetadata (.versionCheck v))) := by
  rcases header_deserialize_eq data s v h hs hv with ⟨ts, hh⟩
  constructor
  · intro hsne
    have hd : deserialize data = .error .sanityCheck := by
      simp only [Brocolib.deserialize, hh]
      rw [if_pos hsne]
    exact ⟨hd, by simp [Metadata.parse, hd]⟩
  · intro hseq hvne
    have hd : deserialize data = .error (.versionCheck v) := by
      simp only [Brocolib.deserialize, hh]
      rw [if_neg (fun hne => hne hseq), if_pos hvne]
    exact ⟨hd, by simp [Metadata.parse, hd]⟩

/-- C1 witness: a 256-byte header whose sanity word is `0xDEADBEEF` is
rejected with `SanityCheck`, and one with correct sanity but version 30 is
rejected with `VersionCheck 30`. -/
theorem global_header_validation_witness :
    (256 ≤ ([0xEF, 0xBE, 0xAD, 0xDE] ++ List.replicate 252 0 : List Nat).length ∧
      Metadata.parse (fun _ _ => .ok ())
        ([0xEF, 0xBE, 0xAD, 0xDE] ++ List.replicate 252 0) [] =
        .error (.globalMetadata .sanityCheck)) ∧
    (256 ≤ ([0xAF, 0x1B, 0xB1, 0xFA, 30, 0, 0, 0] ++ List.replicate 248 0 :
        List Nat).length ∧
      Metadata.parse (fun _ _ => .ok ())
        ([0xAF, 0x1B, 0xB1, 0xFA, 30, 0, 0, 0] ++ List.replicate 248 0) [] =
        .error (.globalMetadata (.versionCheck 30))) := by
  have hl1 : 256 ≤ ([0xEF, 0xBE, 0xAD, 0xDE] ++ List.replicate 252 0 : List Nat).length := by
    rw [List.length_append, List.length_replicate]
    norm_num
  have hl2 : 256 ≤ ([0xAF, 0x1B, 0xB1, 0xFA, 30, 0, 0, 0] ++ List.replicate 248 0 :
      List Nat).length := by
    rw [List.length_append, List.length_replicate]
    norm_num
  constructor
  · refine ⟨hl1, ?_⟩
    exact ((global_header_validation (fun _ _ => .ok ())
      ([0xEF, 0xBE, 0xAD, 0xDE] ++ List.replicate 252 0) [] 0xDEADBEEF 0
      hl1 (by rfl) (by rfl)).1 (by decide)).2
  · refine ⟨hl2, ?_⟩
    exact ((global_header_validation (fun _ _ => .ok ())
      ([0xAF, 0x1B, 0xB1, 0xFA, 30, 0, 0, 0] ++ List.replicate 248 0) [] SANITY 30
      hl2 (by rfl) (by rfl)).2 rfl (by decide)).2

/-! ## Theorems for claims C3 and C4 -/

/-- Helper: the mask `0xFF000000` keeps exactly bits 24–31, so for a 32-bit
value masking equals shifting the top byte back into place. -/
theorem and_high_byte_mask (x : Nat) (h : x < 2 ^ 32) :
    x &&& 0xFF000000 = (x >>> 24) <<< 24 := by
  have hmask : ∀ i, Nat.testBit 0xFF000000 i =
      (decide (24 ≤ i) && decide (i - 24 < 8)) := by
    intro i
    have he : (0xFF000000 : Nat) = (2 ^ 8 - 1) <<< 24 := by
      rw [Nat.shiftLeft_eq]; norm_num
    rw [he, Nat.testBit_shiftLeft, Nat.testBit_two_pow_sub_one]
  apply Nat.eq_of_testBit_eq
  intro i
  rw [Nat.testBit_and, hmask i, Nat.testBit_shiftLeft, Nat.testBit_shiftRight]
  rcases lt_or_ge i 24 with hi | hi
  · simp [Nat.not_le.mpr hi]
  · rcases lt_or_ge i 32 with hi2 | hi2
    · simp [hi, Nat.add_sub_cancel' hi, show i - 24 < 8 by omega]
    · have h1 : Nat.testBit x i = false := Nat.testBit_lt_two_pow (by
        calc x < 2 ^ 32 := h
        _ ≤ 2 ^ i := Nat.pow_le_pow_right (by norm_num) hi2)
      have h2 : Nat.testBit x (24 + (i - 24)) = false := by
        rwa [show 24 + (i - 24) = i by omega]
      simp [h1, h2]

/-- C3 counterexample: the claim says `Token::ty` returns `token >> 24`, but
the source computes `token & 0xFF000000`.  At token `0x06000007` the accessor
returns `0x06000000`, not the claimed `0x06` (while `rid` is `7` as claimed). -/
theorem token_ty_counterexample :
    Token.ty ⟨0x06000007⟩ = 0x06000000 ∧
    (0x06000007 : Nat) >>> 24 = 0x06 ∧
    Token.ty ⟨0x06000007⟩ ≠ (0x06000007 : Nat) >>> 24 ∧
    Token.rid ⟨0x06000007⟩ = 7 := by
  refine ⟨by decide, by decide, by decide, by decide⟩

/-- C3 (amended): `Token::ty` returns `token & 0xFF000000`, i.e. the kind byte
left in the high-byte position (so the kind `token >> 24` is recovered by
shifting the result right by 24), and `Token::rid` returns the low 24 bits;
together they decompose the token. -/
theorem token_accessors_amended (t : Token) (h : t.val < 2 ^ 32) :
    Token.ty t = (t.val >>> 24) <<< 24 ∧
    Token.rid t = t.val % 2 ^ 24 ∧
    Token.ty t + Token.rid t = t.val ∧
    (Token.ty t) >>> 24 = t.val >>> 24 := by
  have hty : Token.ty t = (t.val >>> 24) <<< 24 := and_high_byte_mask t.val h
  have hrid : Token.rid t = t.val % 2 ^ 24 := by
    have he : (0x00FFFFFF : Nat) = 2 ^ 24 - 1 := by norm_num
    rw [Token.rid, he, Nat.and_pow_two_sub_one_eq_mod]
  refine ⟨hty, hrid, ?_, ?_⟩
  · rw [hty, hrid, Nat.shiftRight_eq_div_pow, Nat.shiftLeft_eq]
    omega
  · rw [hty, Nat.shiftLeft_eq, Nat.shiftRight_eq_div_pow, Nat.shiftRight_eq_div_pow,
      Nat.mul_div_cancel]
    norm_num

/-- C3 amended-theorem witness at the claim's own example token `0x06000007`. -/
theorem token_accessors_amended_witness :
    (0x06000007 : Nat) < 2 ^ 32 ∧
    (Token.ty ⟨0x06000007⟩ = ((0x06000007 : Nat) >>> 24) <<< 24 ∧
     Token.rid ⟨0x06000007⟩ = 0x06000007 % 2 ^ 24 ∧
     Token.ty ⟨0x06000007⟩ + Token.rid ⟨0x06000007⟩ = 0x06000007 ∧
     (Token.ty ⟨0x06000007⟩) >>> 24 = (0x06000007 : Nat) >>> 24) :=
  ⟨by decide, token_accessors_amended ⟨0x06000007⟩ (by decide)⟩

set_option maxRecDepth 4000 in
/-- C4: `EncodedMethodIndex::decode` computes `ty = (x & 0xE0000000) >> 29`,
`idx = (x & 0x1FFFFFFE) >> 1`, `invalid = x & 1`, and maps `ty = 0..7` to
Invalid (NoData vs AmbiguousMethod by the invalid bit), TypeInfo, Il2CppType,
MethodDef, FieldInfo, StringLiteral, MethodRef and FieldRva respectively;
in particular `0x60000006` decodes to MethodDef with `idx = 3`, `invalid = 0`. -/
theorem encoded_method_index_decode_correct :
    (∀ x : Nat, EncodedMethodIndex.decode x =
      some (encodedMethodIndexSpec ((x &&& 0xE0000000) >>> 29)
        ((x &&& 0x1FFFFFFE) >>> 1) (x &&& 1))) ∧
    EncodedMethodIndex.decode 0x60000006 = some (.methodDef 3) ∧
    (0x60000006 : Nat) &&& 1 = 0 := by
  refine ⟨?_, by rfl, by rfl⟩
  intro x
  have hty : (x &&& 0xE0000000) >>> 29 ≤ 7 := by
    have h1 : x &&& 0xE0000000 ≤ 0xE0000000 := Nat.and_le_right
    rw [Nat.shiftRight_eq_div_pow]
    omega
  have hinv : x &&& 1 ≤ 1 := by
    rw [Nat.and_one_is_mod]
    omega
  simp only [EncodedMethodIndex.decode]
  set t := (x &&& 0xE0000000) >>> 29 with ht
  set inv := x &&& 1 with hi
  interval_cases t <;> [skip; rfl; rfl; rfl; rfl; rfl; rfl; rfl]
  interval_cases inv <;> rfl

/-! ## Theorems for claim C9 -/

/-- C9: `is_valid` is false exactly at the maximum representable value of the
index's width (`u32::MAX` in general, `u16::MAX` for generic-parameter-
constraint indices); the optional accessor `generic_container` returns `None`
at the sentinel without touching the table and `Some` of the referenced row
for a valid in-bounds index; and plain table indexing at the sentinel never
yields a row. -/
theorem index_sentinel_validity (v32 v16 : Nat) (m : Il2CppMethodDefinition)
    (gcs : List Il2CppGenericContainer) :
    (indexIsValid u32MAX v32 = false ↔ v32 = u32MAX) ∧
    (indexIsValid u16MAX v16 = false ↔ v16 = u16MAX) ∧
    (m.generic_container_index = u32MAX → m.generic_container gcs = some none) ∧
    (m.generic_container_index ≠ u32MAX → m.generic_container_index < gcs.length →
      m.generic_container gcs = some (tableGet gcs m.generic_container_index) ∧
      (tableGet gcs m.generic_container_index).isSome) ∧
    (gcs.length ≤ u32MAX → tableGet gcs u32MAX = none) := by
  refine ⟨?_, ?_, ?_, ?_, ?_⟩
  · simp [indexIsValid]
  · simp [indexIsValid]
  · intro h
    simp [Il2CppMethodDefinition.generic_container, indexIsValid, h]
  · intro h hb
    have hg : tableGet gcs m.generic_container_index =
        some (gcs.get ⟨m.generic_container_index, hb⟩) := by
      simp [tableGet, List.get?_eq_get hb]
    refine ⟨?_, by simp [hg]⟩
    simp [Il2CppMethodDefinition.generic_container, indexIsValid, h, hg]
  · intro h
    exact List.get?_eq_none.mpr h

/-- C9 witness: concrete sentinel and in-bounds accesses. -/
theorem index_sentinel_validity_witness :
    (Il2CppMethodDefinition.generic_container
      ⟨0, 0, 0, ⟨0⟩, 0, u32MAX, ⟨0⟩, 0, 0, 0, 0⟩ [⟨0, 1, 0, 0⟩] = some none) ∧
    (Il2CppMethodDefinition.generic_container
      ⟨0, 0, 0, ⟨0⟩, 0, 0, ⟨0⟩, 0, 0, 0, 0⟩ [⟨0, 1, 0, 0⟩] =
      some (tableGet [⟨0, 1, 0, 0⟩] 0)) ∧
    tableGet ([] : List Il2CppGenericContainer) u32MAX = none := by
  refine ⟨?_, ?_, ?_⟩
  · exact (index_sentinel_validity 0 0 ⟨0, 0, 0, ⟨0⟩, 0, u32MAX, ⟨0⟩, 0, 0, 0, 0⟩
      [⟨0, 1, 0, 0⟩]).2.2.1 rfl
  · exact ((index_sentinel_validity 0 0 ⟨0, 0, 0, ⟨0⟩, 0, 0, ⟨0⟩, 0, 0, 0, 0⟩
      [⟨0, 1, 0, 0⟩]).2.2.2.1 (by decide) (by decide)).1
  · exact (index_sentinel_validity 0 0 ⟨0, 0, 0, ⟨0⟩, 0, 0, ⟨0⟩, 0, 0, 0, 0⟩
      []).2.2.2.2 (by decide)

/-! ## Theorems for claims C2, C5 and C10 -/

/-- C2 counterexample: the claim says each flag is its own bit of the flag
byte for every value; at flag byte `0b1000_0000` (bit 7 only) the source
decodes byref=true and pinned=true (because it tests `(bitfield >> 5) != 0`
and `(bitfield >> 6) != 0`, not single bits), while bits 5 and 6 are clear. -/
theorem type_flags_counterexample :
    (Il2CppType.read ⟨fun _ => none, fun _ => none, fun _ => none⟩
      [0, 0, 0, 0, 0, 0, 0, 0, 0, 0, 0x12, 0x80] 0).map
        (fun t => (t.byref, t.pinned, t.valuetype)) = some (true, true, true) ∧
    Nat.testBit 0x80 5 = false ∧ Nat.testBit 0x80 6 = false ∧
    Nat.testBit 0x80 7 = true :=
  ⟨rfl, by decide, by decide, by decide⟩

/-- C2 (amended): the decoded flags are byref ↔ some bit ≥ 5 of the flag byte
is set (`(bitfield >> 5) != 0`), pinned ↔ some bit ≥ 6 is set, and
valuetype ↔ bit 7 (for bytes, `(bitfield >> 7) != 0` coincides with bit 7);
the claim's record with kind `0x12` and bitfield `0b0010_0000` does decode to
byref=true, pinned=false, valuetype=false. -/
theorem type_record_flags (env : TypeReadEnv) (elf_rel : List Nat) (pos : Nat)
    (t : Il2CppType) (b : Nat) (hb : b < 256)
    (hread : Il2CppType.read env elf_rel pos = some t)
    (hbyte : readU8 elf_rel (pos + 11) = some b) :
    (t.byref = (b >>> 5 != 0) ∧ t.pinned = (b >>> 6 != 0) ∧
      t.valuetype = (b >>> 7 != 0)) ∧
    (t.byref = true ↔ (Nat.testBit b 5 ∨ Nat.testBit b 6 ∨ Nat.testBit b 7)) ∧
    (t.pinned = true ↔ (Nat.testBit b 6 ∨ Nat.testBit b 7)) ∧
    (t.valuetype = Nat.testBit b 7) := by
  have hflags : t.byref = (b >>> 5 != 0) ∧ t.pinned = (b >>> 6 != 0) ∧
      t.valuetype = (b >>> 7 != 0) := by
    simp only [Il2CppType.read, bind, Option.bind_eq_some, pure] at hread
    obtain ⟨raw, hraw, attrs, hattrs, tyid, htyid, ty, hty, bf, hbf, rest⟩ := hread
    rw [hbyte] at hbf
    cases hbf
    cases ty <;>
      (rcases Option.bind_eq_some.mp rest with ⟨a, ha, ht2⟩ ;
        cases ht2 ;
        exact ⟨rfl, rfl, rfl⟩)
  obtain ⟨h1, h2, h3⟩ := hflags
  refine ⟨⟨h1, h2, h3⟩, ?_, ?_, ?_⟩
  · rw [h1]
    simp only [bne_iff_ne, ne_eq, Nat.shiftRight_eq_div_pow,
      Nat.testBit_to_div_mod, decide_eq_true_eq]
    constructor
    · intro h
      omega
    · intro h
      omega
  · rw [h2]
    simp only [bne_iff_ne, ne_eq, Nat.shiftRight_eq_div_pow,
      Nat.testBit_to_div_mod, decide_eq_true_eq]
    constructor
    · intro h
      omega
    · intro h
      omega
  · rw [h3]
    simp only [bne_iff_ne, ne_eq, Nat.shiftRight_eq_div_pow,
      Nat.testBit_to_div_mod]
    rcases Nat.lt_or_ge b 128 with hlt | hge
    · have h128 : b / 128 = 0 := by omega
      rw [show (2 : Nat) ^ 7 = 128 by norm_num, h128]
      decide
    · have h128 : b / 128 = 1 := by omega
      rw [show (2 : Nat) ^ 7 = 128 by norm_num, h128]
      decide

/-- C2 witness: the claim's own scenario record (kind `0x12`, bitfield
`0b0010_0000`) decoded through `Il2CppType::read`. -/
theorem type_record_flags_witness :
    (0x20 : Nat) < 256 ∧
    Il2CppType.read ⟨fun _ => none, fun _ => none, fun _ => none⟩
      [0, 0, 0, 0, 0, 0, 0, 0, 0, 0, 0x12, 0x20] 0 =
      some ⟨.typeDefinitionIndex 0, 0, .class_, true, false, false⟩ ∧
    ((true = ((0x20 : Nat) >>> 5 != 0) ∧ false = ((0x20 : Nat) >>> 6 != 0) ∧
      false = ((0x20 : Nat) >>> 7 != 0)) ∧
    (true = true ↔ (Nat.testBit 0x20 5 ∨ Nat.testBit 0x20 6 ∨ Nat.testBit 0x20 7)) ∧
    (false = true ↔ (Nat.testBit 0x20 6 ∨ Nat.testBit 0x20 7)) ∧
    (false = Nat.testBit 0x20 7)) := by
  refine ⟨by decide, by rfl, ?_⟩
  exact type_record_flags ⟨fun _ => none, fun _ => none, fun _ => none⟩
    [0, 0, 0, 0, 0, 0, 0, 0, 0, 0, 0x12, 0x20] 0
    ⟨.typeDefinitionIndex 0, 0, .class_, true, false, false⟩ 0x20
    (by decide) (by rfl) (by rfl)

/-- C5: `full_name` evaluated on the relevant kinds.  The source renders
kind `I8` as "System.UInt64", kind `U8` as "System.Int64" (swapped relative
to the enum's own documentation) and `R4` as "System.Float" (not
"System.Single"), while the szarray and array arms behave as described. -/
theorem full_name_primitive_eval :
    Il2CppType.full_name 1 ⟨⟨[], [], []⟩, ⟨[], [], [], []⟩⟩
      ⟨.typeDefinitionIndex 0, 0, .i8, false, false, false⟩ =
      some "System.UInt64" ∧
    Il2CppType.full_name 1 ⟨⟨[], [], []⟩, ⟨[], [], [], []⟩⟩
      ⟨.typeDefinitionIndex 0, 0, .u8, false, false, false⟩ =
      some "System.Int64" ∧
    Il2CppType.full_name 1 ⟨⟨[], [], []⟩, ⟨[], [], [], []⟩⟩
      ⟨.typeDefinitionIndex 0, 0, .r4, false, false, false⟩ =
      some "System.Float" ∧
    ("System.UInt64" : String) ≠ "System.Int64" ∧
    ("System.Float" : String) ≠ "System.Single" ∧
    Il2CppType.full_name 2
      ⟨⟨[], [], []⟩,
        ⟨[], [], [⟨.typeDefinitionIndex 0, 0, .i4, false, false, false⟩], []⟩⟩
      ⟨.typeIndex 0, 0, .szarray, false, false, false⟩ =
      some "System.Int32[]" ∧
    Il2CppType.full_name 2
      ⟨⟨[], [], []⟩,
        ⟨[], [], [⟨.typeDefinitionIndex 0, 0, .i4, false, false, false⟩],
          [⟨0, 3, [], []⟩]⟩⟩
      ⟨.arrayType 0, 0, .array, false, false, false⟩ =
      some "System.Int32[,,]" :=
  ⟨rfl, rfl, rfl, by decide, by decide, rfl, rfl⟩

/-- C10: on a `Genericinst` type, `full_name` unwraps the generic class's
`class_inst_idx` unconditionally, so whenever the referenced context has no
class instantiation the call has no defined result (the source panics on the
`unwrap`), even though `Il2CppGenericContext` permits the index to be absent. -/
theorem genericinst_full_name_requires_class_inst (md : MetadataM)
    (t : Il2CppType) (gci : Nat) (gc : Il2CppGenericClass) (fuel : Nat)
    (hty : t.ty = .genericinst) (hdata : t.data = .genericClassIndex gci)
    (hgc : md.metadata_registration.generic_classes.get? gci = some gc)
    (hnone : gc.context.class_inst_idx = none) :
    Il2CppType.full_name (fuel + 1) md t = none := by
  rw [Il2CppType.full_name]
  simp only [List.get?_eq_getElem?] at hgc
  simp [hty, hdata, hgc, hnone]

/-- C10 witness: a one-class metadata whose generic context has no class
instantiation makes `full_name` undefined, while the same shape with a
present class instantiation renders normally. -/
theorem genericinst_full_name_requires_class_inst_witness :
    Il2CppType.full_name 1
      ⟨⟨[], [], []⟩, ⟨[⟨0, ⟨none, none⟩⟩], [],
        [⟨.genericClassIndex 0, 0, .genericinst, false, false, false⟩], []⟩⟩
      ⟨.genericClassIndex 0, 0, .genericinst, false, false, false⟩ = none ∧
    Il2CppType.full_name 3
      ⟨⟨[], [], []⟩, ⟨[⟨1, ⟨some 0, none⟩⟩], [⟨[1]⟩],
        [⟨.genericClassIndex 0, 0, .genericinst, false, false, false⟩,
         ⟨.typeDefinitionIndex 0, 0, .i4, false, false, false⟩], []⟩⟩
      ⟨.genericClassIndex 0, 0, .genericinst, false, false, false⟩ =
      some "System.Int32<System.Int32>" := by
  constructor
  · exact genericinst_full_name_requires_class_inst
      ⟨⟨[], [], []⟩, ⟨[⟨0, ⟨none, none⟩⟩], [],
        [⟨.genericClassIndex 0, 0, .genericinst, false, false, false⟩], []⟩⟩
      ⟨.genericClassIndex 0, 0, .genericinst, false, false, false⟩ 0
      ⟨0, ⟨none, none⟩⟩ 0 rfl rfl rfl rfl
  · rfl

/-! ## Theorems for claim C7 -/

/-- C7: a nullable counted array read (count, padding, target address)
yields exactly `count` default-initialised entries without reading the
target when the target address lies in `.bss`, and otherwise reads `count`
entries from the target's converted file offset; during code-gen module
parsing the method-pointer array is read exactly this way. -/
theorem nullable_counted_array_semantics {α : Type}
    (readElems : List Nat → Nat → Nat → Option (List α)) (dflt : α)
    (elf : ElfView) (elf_rel : List Nat) (pos count padding addr : Nat)
    (hc : readU32LE elf_rel pos = some count)
    (hp : readU32LE elf_rel (pos + 4) = some padding)
    (ha : readU64LE elf_rel (pos + 8) = some addr) :
    (addr_in_bss elf addr = true →
      read_len_arr_nullable readElems dflt elf elf_rel pos =
        some (List.replicate count dflt, pos + 16)) ∧
    (addr_in_bss elf addr = false →
      read_len_arr_nullable readElems dflt elf elf_rel pos =
        (read_arr readElems elf elf_rel addr count).map
          (fun arr => (arr, pos + 16))) ∧
    (∀ vaddr mpos m, vaddr_conv elf.segments vaddr = some mpos →
      Il2CppCodeGenModuleM.read elf elf_rel vaddr = some m →
      ∃ r, read_len_arr_nullable readU64s 0 elf elf_rel (mpos + 8) =
        some (m.method_pointers, r)) := by
  refine ⟨?_, ?_, ?_⟩
  · intro hbss
    simp [read_len_arr_nullable, hc, hp, ha, hbss]
  · intro hbss
    simp [read_len_arr_nullable, hc, hp, ha, hbss]
    rcases read_arr readElems elf elf_rel addr count with _ | arr
    · rfl
    · rfl
  · intro vaddr mpos m hmpos hm
    simp only [Il2CppCodeGenModuleM.read, bind, Option.bind_eq_some, pure] at hm
    obtain ⟨p0, hp0, name_ptr, hnp, npos, hnpos, nm, hnm, rest⟩ := hm
    rw [hmpos] at hp0
    cases hp0
    obtain ⟨a, hga, a1, ha1, a2, ha2, a3, ha3, a4, ha4, a5, ha5, heq⟩ := rest
    cases heq
    exact ⟨a.2, hga⟩

/-- C7 witness: a `.bss`-resident array address produces default entries, a
mapped address is read from its converted offset, and the concrete code-gen
module's method pointers come from the nullable read. -/
theorem nullable_counted_array_semantics_witness :
    read_len_arr_nullable readU64s 0 sampleElf
      [2, 0, 0, 0, 0, 0, 0, 0, 244, 1, 0, 0, 0, 0, 0, 0] 0 =
      some ([0, 0], 16) ∧
    read_len_arr_nullable readU64s 0 sampleElf
      ([1, 0, 0, 0, 0, 0, 0, 0, 16, 0, 0, 0, 0, 0, 0, 0] ++
        [42, 0, 0, 0, 0, 0, 0, 0]) 0 =
      some ([42], 16) ∧
    (∃ r, read_len_arr_nullable readU64s 0 sampleModuleElf sampleModuleBytes 8 =
      some (([0] : List Nat), r)) := by
  refine ⟨?_, ?_, ?_⟩
  · exact ((nullable_counted_array_semantics readU64s 0 sampleElf
      [2, 0, 0, 0, 0, 0, 0, 0, 244, 1, 0, 0, 0, 0, 0, 0] 0 2 0 500
      rfl rfl rfl).1 rfl).trans (by rfl)
  · exact ((nullable_counted_array_semantics readU64s 0 sampleElf
      ([1, 0, 0, 0, 0, 0, 0, 0, 16, 0, 0, 0, 0, 0, 0, 0] ++
        [42, 0, 0, 0, 0, 0, 0, 0]) 0 1 0 16
      (by rfl) (by rfl) (by rfl)).2.1 rfl).trans (by rfl)
  · exact (nullable_counted_array_semantics readU64s 0 sampleModuleElf
      sampleModuleBytes 8 1 0 500 (by rfl) (by rfl) (by rfl)).2.2 0 0
      ⟨[65], [0], [], [7], [], []⟩ (by rfl) (by rfl)

/-! ## Theorems for claim C8 -/

theorem leBytes_length (v n : Nat) : (leBytes v n).length = n := by
  induction n generalizing v with
  | zero => rfl
  | succ k ih => simp [leBytes, ih]

theorem leBytes_getElem? (v n j : Nat) (h : j < n) :
    (leBytes v n)[j]? = some (v / 256 ^ j % 256) := by
  induction n generalizing v j with
  | zero => omega
  | succ k ih =>
    cases j with
    | zero => simp [leBytes]
    | succ j2 =>
      have hrec := ih (v / 256) j2 (by omega)
      simp only [leBytes, List.getElem?_cons_succ, hrec]
      congr 1
      rw [Nat.div_div_eq_div_mul, pow_succ, Nat.mul_comm (256 ^ j2) 256]

theorem writeBytesAt_length (d : List Nat) (p : Nat) (bs : List Nat) :
    (writeBytesAt d p bs).length = max d.length (p + bs.length) := by
  simp [writeBytesAt]
  try omega

theorem writeBytesAt_getElem? (d : List Nat) (p : Nat) (bs : List Nat) (i : Nat) :
    (writeBytesAt d p bs)[i]? =
      if p ≤ i ∧ i < p + bs.length then bs[i - p]?
      else if i < d.length then d[i]?
      else if i < p then some 0
      else none := by
  have hpadlen : (d ++ List.replicate (p - d.length) 0).length = max d.length p := by
    simp
    try omega
  have htakelen : ((d ++ List.replicate (p - d.length) 0).take p).length = p := by
    simp [hpadlen]
    try omega
  have hpadget : ∀ j, (d ++ List.replicate (p - d.length) 0)[j]? =
      if j < d.length then d[j]? else if j < p then some 0 else none := by
    intro j
    rw [List.getElem?_append]
    rcases Nat.lt_or_ge j d.length with hj | hj
    · rw [if_pos hj, if_pos hj]
    · rw [if_neg (by omega), if_neg (by omega), List.getElem?_replicate]
      rcases Nat.lt_or_ge j p with hj2 | hj2
      · rw [if_pos (by omega), if_pos hj2]
      · rw [if_neg (by omega), if_neg (by omega)]
  rw [writeBytesAt, List.append_assoc]
  rw [List.getElem?_append]
  rw [htakelen]
  rcases Nat.lt_or_ge i p with hi | hi
  · rw [if_pos hi, List.getElem?_take_of_lt hi, hpadget i,
      if_neg (show ¬(p ≤ i ∧ i < p + bs.length) by omega)]
  · rw [if_neg (show ¬ i < p by omega), List.getElem?_append]
    rcases Nat.lt_or_ge (i - p) bs.length with hi2 | hi2
    · rw [if_pos hi2, if_pos (show p ≤ i ∧ i < p + bs.length by omega)]
    · rw [if_neg (show ¬ i - p < bs.length by omega), List.getElem?_drop,
        show p + bs.length + (i - p - bs.length) = i by omega, hpadget i,
        if_neg (show ¬(p ≤ i ∧ i < p + bs.length) by omega)]
theorem applyWrites_length (ws : List (Nat × Nat)) :
    ∀ d : List Nat, (applyWrites ws d).length = max d.length (writesEnd ws) := by
  induction ws with
  | nil => intro d; simp [applyWrites, writesEnd]
  | cons pv rest ih =>
    intro d
    rcases pv with ⟨p, v⟩
    rw [applyWrites, ih, writeBytesAt_length, leBytes_length, writesEnd]
    omega

theorem applyWrites_getElem? (ws : List (Nat × Nat)) :
    ∀ (d : List Nat) (i : Nat),
    (applyWrites ws d)[i]? =
      match lastCover ws i with
      | some pv => (leBytes pv.2 8)[i - pv.1]?
      | none =>
        if i < d.length then d[i]?
        else if i < writesEnd ws then some 0
        else none := by
  induction ws with
  | nil =>
    intro d i
    simp only [applyWrites, lastCover, writesEnd]
    rcases Nat.lt_or_ge i d.length with hi | hi
    · rw [if_pos hi]
    · rw [if_neg (by omega), if_neg (by omega)]
      exact List.getElem?_eq_none hi
  | cons pv rest ih =>
    intro d i
    rcases pv with ⟨p, v⟩
    rw [applyWrites, ih]
    rcases hlc : lastCover rest i with _ | x
    · rcases Nat.lt_or_ge i p with hip | hip
      · have hcov : ¬(p ≤ i ∧ i < p + 8) := by omega
        simp only [lastCover, hlc, if_neg hcov]
        rw [writeBytesAt_length, leBytes_length, writeBytesAt_getElem?,
          leBytes_length, if_neg hcov]
        rcases Nat.lt_or_ge i d.length with hid | hid
        · rw [if_pos (show i < max d.length (p + 8) by omega), if_pos hid, if_pos hid]
        · rw [if_pos (show i < max d.length (p + 8) by omega),
            if_neg (show ¬ i < d.length by omega), if_pos hip,
            if_neg (show ¬ i < d.length by omega), writesEnd,
            if_pos (show i < max (p + 8) (writesEnd rest) by omega)]
      · rcases Nat.lt_or_ge i (p + 8) with hip2 | hip2
        · have hcov : p ≤ i ∧ i < p + 8 := by omega
          simp only [lastCover, hlc, if_pos hcov]
          rw [writeBytesAt_length, leBytes_length,
            if_pos (show i < max d.length (p + 8) by omega),
            writeBytesAt_getElem?, leBytes_length, if_pos hcov]
        · have hcov : ¬(p ≤ i ∧ i < p + 8) := by omega
          simp only [lastCover, hlc, if_neg hcov]
          rw [writeBytesAt_length, leBytes_length]
          rcases Nat.lt_or_ge i d.length with hid | hid
          · rw [if_pos (show i < max d.length (p + 8) by omega),
              writeBytesAt_getElem?, leBytes_length, if_neg hcov,
              if_pos hid, if_pos hid]
          · rw [if_neg (show ¬ i < max d.length (p + 8) by omega),
              if_neg (show ¬ i < d.length by omega), writesEnd]
            rcases Nat.lt_or_ge i (writesEnd rest) with hiw | hiw
            · rw [if_pos hiw, if_pos (show i < max (p + 8) (writesEnd rest) by omega)]
            · rw [if_neg (show ¬ i < writesEnd rest by omega),
                if_neg (show ¬ i < max (p + 8) (writesEnd rest) by omega)]
    · simp only [lastCover, hlc]

theorem process_go_eq (segs : List Segment) (rs : List Reloc) :
    ∀ acc, process_relocations_go segs rs acc =
      (relocWrites segs rs).map (fun ws => applyWrites ws acc) := by
  induction rs with
  | nil => intro acc; rfl
  | cons r rest ih =>
    intro acc
    rw [process_relocations_go, relocWrites]
    by_cases hk : r.kind = 1027
    · rw [if_neg (not_not_intro hk), if_neg (not_not_intro hk)]
      rcases hb : r.absolute with _ | _
      · rfl
      · rw [if_neg (by simp), if_neg (by simp)]
        rcases hv : vaddr_conv segs r.addr with _ | p
        · rfl
        · dsimp only
          rw [ih]
          rcases relocWrites segs rest with _ | ws
          · rfl
          · rfl
    · rw [if_pos hk, if_pos hk]
      exact ih acc

theorem relocWrites_mem (segs : List Segment) (rs : List Reloc) :
    ∀ ws, relocWrites segs rs = some ws → ∀ pv ∈ ws,
      ∃ r, r ∈ rs ∧ r.kind = 1027 ∧ vaddr_conv segs r.addr = some pv.1 ∧
        pv.2 = r.addend := by
  induction rs with
  | nil =>
    intro ws hws pv hpv
    simp [relocWrites] at hws
    subst hws
    simp at hpv
  | cons r rest ih =>
    intro ws hws pv hpv
    rw [relocWrites] at hws
    by_cases hk : r.kind = 1027
    · rw [if_neg (not_not_intro hk)] at hws
      rcases hb : r.absolute with _ | _
      · rw [hb, if_pos rfl] at hws
        cases hws
      · rw [hb, if_neg (by simp)] at hws
        rcases hv : vaddr_conv segs r.addr with _ | p
        · rw [hv] at hws
          cases hws
        · rw [hv] at hws
          rcases Option.map_eq_some'.mp hws with ⟨ws2, hws2, hcons⟩
          subst hcons
          rcases List.mem_cons.mp hpv with heq | hmem
          · subst heq
            exact ⟨r, List.mem_cons_self r rest, hk, hv, rfl⟩
          · rcases ih ws2 hws2 pv hmem with ⟨r2, hr2, h2, h3, h4⟩
            exact ⟨r2, List.mem_cons_of_mem r hr2, h2, h3, h4⟩
    · rw [if_pos hk] at hws
      rcases ih ws hws pv hpv with ⟨r2, hr2, h2, h3, h4⟩
      exact ⟨r2, List.mem_cons_of_mem r hr2, h2, h3, h4⟩

theorem relocWrites_all_skip (segs : List Segment) (rs : List Reloc)
    (h : ∀ r ∈ rs, r.kind ≠ 1027) : relocWrites segs rs = some [] := by
  induction rs with
  | nil => rfl
  | cons r rest ih =>
    rw [relocWrites, if_pos (h r (List.mem_cons_self r rest))]
    exact ih (fun r2 hr2 => h r2 (List.mem_cons_of_mem r hr2))

theorem lastCover_eq_none (ws : List (Nat × Nat)) (i : Nat)
    (h : ∀ pv ∈ ws, ¬(pv.1 ≤ i ∧ i < pv.1 + 8)) : lastCover ws i = none := by
  induction ws with
  | nil => rfl
  | cons pv rest ih =>
    rw [lastCover, ih (fun q hq => h q (List.mem_cons_of_mem pv hq))]
    rw [if_neg (h pv (List.mem_cons_self pv rest))]

theorem lastCover_covers (ws : List (Nat × Nat)) (i : Nat) (pv : Nat × Nat)
    (h : lastCover ws i = some pv) : pv.1 ≤ i ∧ i < pv.1 + 8 := by
  induction ws with
  | nil => cases h
  | cons q rest ih =>
    rw [lastCover] at h
    rcases hlc : lastCover rest i with _ | x
    · rw [hlc] at h
      by_cases hc : q.1 ≤ i ∧ i < q.1 + 8
      · rw [if_pos hc] at h
        cases h
        exact hc
      · rw [if_neg hc] at h
        cases h
    · rw [hlc] at h
      cases h
      exact ih hlc

/-- C8: the relocated copy leaves every position untouched by an
`R_AARCH64_RELATIVE` (1027) write unchanged (in particular it equals the
input when no relocation has kind 1027), holds the little-endian addend
byte of the last 1027 write covering each written position, and applying
the pass a second time to its own output reproduces the same bytes
(idempotence: the relocation overwrites). -/
theorem process_relocations_spec (elf : ElfView) (out : List Nat)
    (hout : process_relocations elf = some out) :
    (∀ i, i < elf.data.length →
      (∀ r ∈ elf.relocations, r.kind = 1027 →
        ∀ p, vaddr_conv elf.segments r.addr = some p → ¬(p ≤ i ∧ i < p + 8)) →
      out[i]? = elf.data[i]?) ∧
    (∀ ws, relocWrites elf.segments elf.relocations = some ws →
      ∀ i p v, lastCover ws i = some (p, v) →
        out[i]? = some (v / 256 ^ (i - p) % 256)) ∧
    ((∀ r ∈ elf.relocations, r.kind ≠ 1027) → out = elf.data) ∧
    process_relocations { elf with data := out } = some out := by
  have h1 : process_relocations_go elf.segments elf.relocations elf.data = some out := hout
  rw [process_go_eq] at h1
  rcases Option.map_eq_some'.mp h1 with ⟨ws, hws, hap⟩
  refine ⟨?_, ?_, ?_, ?_⟩
  · intro i hi hunc
    rw [← hap, applyWrites_getElem?]
    have hnone : lastCover ws i = none := by
      apply lastCover_eq_none
      intro pv hpv
      rcases relocWrites_mem elf.segments elf.relocations ws hws pv hpv with
        ⟨r, hr, hk, hv, ha⟩
      exact hunc r hr hk pv.1 hv
    rw [hnone, if_pos hi]
  · intro ws2 hws2 i p v hlcov
    rw [hws] at hws2
    cases hws2
    have hcov := lastCover_covers ws i (p, v) hlcov
    rw [← hap, applyWrites_getElem?, hlcov]
    exact leBytes_getElem? v 8 (i - p) (by omega)
  · intro hk
    rw [relocWrites_all_skip elf.segments elf.relocations hk] at hws
    cases hws
    rw [← hap]
    rfl
  · have hgo : process_relocations { elf with data := out } =
        (relocWrites elf.segments elf.relocations).map (fun ws => applyWrites ws out) := by
      rw [process_relocations]
      exact process_go_eq elf.segments elf.relocations out
    rw [hgo, hws]
    have hfix : applyWrites ws out = out := by
      have hlen : out.length = max elf.data.length (writesEnd ws) := by
        rw [← hap, applyWrites_length]
      apply List.ext_getElem?
      intro i
      rw [applyWrites_getElem?]
      rcases hlc : lastCover ws i with _ | pv
      · rcases Nat.lt_or_ge i out.length with hi | hi
        · rw [if_pos hi]
        · rw [if_neg (by omega), if_neg (show ¬ i < writesEnd ws by omega)]
          exact (List.getElem?_eq_none hi).symm
      · rw [← hap, applyWrites_getElem?, hlc]
    simp [hfix]

/-- C8 witness: a concrete ELF with one 1027 relocation (addend 258 at
address 4) and one ignored kind-5 relocation. -/
theorem process_relocations_spec_witness :
    process_relocations sampleRelocElf = some sampleRelocOut ∧
    sampleRelocOut[0]? = sampleRelocElf.data[0]? ∧
    sampleRelocOut[4]? = some 2 ∧
    sampleRelocOut[5]? = some 1 ∧
    process_relocations { sampleRelocElf with data := sampleRelocOut } =
      some sampleRelocOut := by
  have hout : process_relocations sampleRelocElf = some sampleRelocOut := by rfl
  have hspec := process_relocations_spec sampleRelocElf sampleRelocOut hout
  refine ⟨hout, ?_, ?_, ?_, hspec.2.2.2⟩
  · refine hspec.1 0 (by decide) ?_
    intro r hr hk p hp
    rcases List.mem_cons.mp hr with h | h
    · subst h
      have h4 : (some 4 : Option Nat) = some p := hp
      cases h4
      omega
    · rcases List.mem_cons.mp h with h2 | h2
      · subst h2
        exact absurd hk (by decide)
      · simp at h2
  · exact (hspec.2.1 [(4, 258)] (by rfl) 4 4 258 (by rfl)).trans (by rfl)
  · exact (hspec.2.1 [(4, 258)] (by rfl) 5 4 258 (by rfl)).trans (by rfl)


/-! ## Theorems for claim C6 -/

theorem fetchInstr_err (e : Arm64Elf) (o : Nat) (er : Il2CppBinaryErrorM)
    (h : fetchInstr e o = .err er) : er = .disassemble := by
  rw [fetchInstr] at h
  split at h
  · split at h
    · cases h
    · cases h
      rfl
  · cases h

theorem nth_bl_go_err (e : Arm64Elf) :
    ∀ fuel offset n er, nth_bl_go e offset n fuel = .err er →
      er = .disassemble := by
  intro fuel
  induction fuel with
  | zero => intro offset n er h; cases h
  | succ k ih =>
    intro offset n er h
    rw [nth_bl_go] at h
    rcases hf : fetchInstr e offset with i | er2 | _
    · rcases i with _ | _ | _ | t | _ | _ <;> simp only [hf] at h
      · exact ih _ _ _ h
      · exact ih _ _ _ h
      · exact ih _ _ _ h
      · split at h
        · cases h
        · exact ih _ _ _ h
      · exact ih _ _ _ h
      · exact ih _ _ _ h
    · simp only [hf] at h
      cases h
      exact fetchInstr_err e offset _ hf
    · simp only [hf] at h
      cases h

theorem find_blr_go_err (e : Arm64Elf) :
    ∀ limit offset er, find_blr_go e offset limit = .err er →
      er = .disassemble := by
  intro limit
  induction limit with
  | zero => intro offset er h; cases h
  | succ k ih =>
    intro offset er h
    rw [find_blr_go] at h
    rcases hf : fetchInstr e offset with i | er2 | _
    · rcases i with _ | _ | _ | _ | r | _ <;> simp only [hf] at h
      · exact ih _ _ h
      · exact ih _ _ h
      · exact ih _ _ h
      · exact ih _ _ h
      · cases h
      · exact ih _ _ h
    · simp only [hf] at h
      cases h
      exact fetchInstr_err e offset _ hf
    · simp only [hf] at h
      cases h

theorem disasmRange_go_err (e : Arm64Elf) :
    ∀ k offset er, disasmRange_go e offset k = .err er → er = .disassemble := by
  intro k
  induction k with
  | zero => intro offset er h; cases h
  | succ k2 ih =>
    intro offset er h
    rw [disasmRange_go] at h
    rcases hd : e.decode offset with _ | i <;> simp only [hd] at h
    · cases h
      rfl
    · rcases hr : disasmRange_go e (offset + 4) k2 with l | er2 | _ <;>
        simp only [hr] at h
      · cases h
      · cases h
        exact ih _ _ hr
      · cases h

theorem nth_bl_err (e : Arm64Elf) (addr n fuel : Nat) (er : Il2CppBinaryErrorM)
    (h : nth_bl e addr n fuel = .err er) :
    er = .disassemble ∨ er = .vaddrConv addr := by
  rw [nth_bl] at h
  rcases hv : vaddr_conv e.elf.segments addr with _ | o <;> rw [hv] at h
  · cases h
    exact Or.inr rfl
  · exact Or.inl (nth_bl_go_err e fuel o n er h)

theorem find_blr_err (e : Arm64Elf) (addr limit : Nat) (er : Il2CppBinaryErrorM)
    (h : find_blr e addr limit = .err er) :
    er = .disassemble ∨ er = .vaddrConv addr := by
  rw [find_blr] at h
  rcases hv : vaddr_conv e.elf.segments addr with _ | o <;> rw [hv] at h
  · cases h
    exact Or.inr rfl
  · exact Or.inl (find_blr_go_err e limit o er h)

theorem disasmRange_err (e : Arm64Elf) (a b : Nat) (er : Il2CppBinaryErrorM)
    (h : disasmRange e a b = .err er) : er = .disassemble := by
  rw [disasmRange] at h
  split at h
  · exact disasmRange_go_err e ((b - a) / 4) a er h
  · cases h

theorem find_registration_never_missing_registration (e : Arm64Elf)
    (elf_rel : List Nat) (fuel : Nat) :
    find_registration e elf_rel fuel ≠ .err .missingRegistration := by
  intro h
  rw [find_registration] at h
  rcases h1 : findDynamicSymbol e.dynamic_symbols "il2cpp_init" with _ | init <;>
    simp only [h1] at h
  · simp at h
  rcases h2 : nth_bl e init 2 fuel with ri | er | _ <;> simp only [h2] at h
  case err =>
    simp only [Outcome.err.injEq] at h
    subst h
    rcases nth_bl_err e init 2 fuel _ h2 with h3 | h3 <;> cases h3
  case panic => cases h
  rcases h3 : vaddr_conv e.elf.segments ri with _ | roff <;> simp only [h3] at h
  · simp at h
  rcases h4 : find_blr e ri 200 with ob | er | _ <;> simp only [h4] at h
  case err =>
    simp only [Outcome.err.injEq] at h
    subst h
    rcases find_blr_err e ri 200 _ h4 with h5 | h5 <;> cases h5
  case panic => cases h
  rcases ob with _ | ⟨boff, breg⟩ <;> simp only [] at h
  · simp at h
  rcases h5 : disasmRange e roff boff with il | er | _ <;> simp only [h5] at h
  case err =>
    simp only [Outcome.err.injEq] at h
    subst h
    cases disasmRange_err e roff boff _ h5
  case panic => cases h
  rcases h6 : analyze_reg_rel e elf_rel il [] with _ | regs <;> simp only [h6] at h
  · cases h
  rcases h7 : regLookup regs breg with _ | fnv <;> simp only [h7] at h
  · cases h
  rcases h8 : vaddr_conv e.elf.segments fnv with _ | fnoff <;> simp only [h8] at h
  · simp at h
  rcases h9 : disasmRange e fnoff (fnoff + 7 * 4) with il2 | er | _ <;>
    simp only [h9] at h
  case err =>
    simp only [Outcome.err.injEq] at h
    subst h
    cases disasmRange_err e fnoff (fnoff + 7 * 4) _ h9
  case panic => cases h
  rcases h10 : analyze_reg_rel e elf_rel il2 [] with _ | regs2 <;>
    simp only [h10] at h
  · cases h
  rcases h11 : regLookup regs2 0 with _ | x0 <;>
    rcases h12 : regLookup regs2 1 with _ | x1 <;> simp only [h11, h12] at h <;>
    cases h

set_option maxRecDepth 100000 in
/-- C6: runtime root discovery fails with `MissingIl2CppInit` when the
`il2cpp_init` dynamic symbol is absent and with `MissingBlr` when no `BLR`
occurs within 200 instructions of the runtime-initialisation routine, but
when the registration addresses cannot be recovered from the analysed
registers the code panics on the `HashMap` indices `regs[&blr_reg]`,
`regs[&Reg::X0]`, `regs[&Reg::X1]` — the declared `MissingRegistration`
error is never returned on any path. -/
theorem find_registration_error_kinds :
    (∀ (e : Arm64Elf) (elf_rel : List Nat) (fuel : Nat),
      find_registration e elf_rel fuel ≠ .err .missingRegistration) ∧
    find_registration arm64NoInit [] 10 = .err .missingIl2CppInit ∧
    find_registration arm64NoBlr [] 10 = .err .missingBlr ∧
    find_registration arm64NoReg [] 10 = .panic :=
  ⟨find_registration_never_missing_registration, by rfl, by rfl, by rfl⟩

end Brocolib